import Mathlib

/-!
Verification of the motive `anim_pipeline` curve-fitting core
(`src/anim_pipeline/anim_pipeline.cpp`).

Shallow embedding conventions:
* `FlatTime` (C++ `int` ticks) is `ℤ`; `FlatVal`/`FlatDerivative` (C++ `float`)
  are idealised as exact rationals `ℚ`.
* `DerivativeAngle(d) = atan(d)` appears in the source only inside comparisons
  of the shape `fabs(atan e) < θ`.  Since `atan` is odd and strictly monotone,
  `fabs(atan e) < θ  ↔  |e| < tan θ` for an angle tolerance `θ ∈ (0, π/2)`.
  The embedding therefore stores a derivative-angle tolerance by its tangent
  (a rational), keeping every function computable.  The lemma
  `abs_arctan_lt_arctan_iff` below proves this encoding exact, and the
  claim-level theorems are stated through `Real.arctan` where the claim
  speaks of derivative angles.
* `CubicCurve`/`CubicInit` (motive math library, not part of the sources
  verified here) are modelled from the spec, see `cubicInit`.
-/

namespace AnimPipeline

/-- Node of a spline curve: `FlatAnim::SplineNode` with
`time : FlatTime = int`, `val : FlatVal = float`, `derivative : float`.
`operator==` of the source is exact componentwise equality, which is the
derived decidable equality. -/
structure SplineNode where
  time : ℤ
  val : ℚ
  derivative : ℚ
deriving DecidableEq, Repr

/-- Default constructor `SplineNode() : time(0), val(0.0f), derivative(0.0f)`. -/
instance : Inhabited SplineNode := ⟨⟨0, 0, 0⟩⟩

/-- Enum `motive::MatrixOperationType` from `motive/init.h` (appended to
the pipeline source file, lines 1632–1644), constructors in declaration
order, including the `kInvalidMatrixOperation` and
`kNumMatrixOperationTypes` sentinels. -/
inductive MatrixOperationType where
  | kInvalidMatrixOperation
  | kRotateAboutX | kRotateAboutY | kRotateAboutZ
  | kTranslateX | kTranslateY | kTranslateZ
  | kScaleX | kScaleY | kScaleZ | kScaleUniformly
  | kNumMatrixOperationTypes
deriving DecidableEq, Repr

/-- Numeric value of each enum constant: the C++ enumerators take the
consecutive values `0..11` in declaration order. -/
def MatrixOperationType.val : MatrixOperationType → ℕ
  | .kInvalidMatrixOperation => 0
  | .kRotateAboutX => 1
  | .kRotateAboutY => 2
  | .kRotateAboutZ => 3
  | .kTranslateX => 4
  | .kTranslateY => 5
  | .kTranslateZ => 6
  | .kScaleX => 7
  | .kScaleY => 8
  | .kScaleZ => 9
  | .kScaleUniformly => 10
  | .kNumMatrixOperationTypes => 11

/-- Default `Channel()` constructs with `op(kInvalidMatrixOperation)`. -/
instance : Inhabited MatrixOperationType := ⟨.kInvalidMatrixOperation⟩

/-- Source `motive::RotateOp` (`motive/init.h`, appended source line
1648): `kRotateAboutX <= op && op <= kRotateAboutZ`. -/
def RotateOp (op : MatrixOperationType) : Bool :=
  decide (MatrixOperationType.kRotateAboutX.val ≤ op.val) &&
    decide (op.val ≤ MatrixOperationType.kRotateAboutZ.val)

/-- Source `motive::TranslateOp` (`motive/init.h`, appended source line
1653): `kTranslateX <= op && op <= kTranslateZ`. -/
def TranslateOp (op : MatrixOperationType) : Bool :=
  decide (MatrixOperationType.kTranslateX.val ≤ op.val) &&
    decide (op.val ≤ MatrixOperationType.kTranslateZ.val)

/-- Source `motive::ScaleOp` (`motive/init.h`, appended source line
1658): `kScaleX <= op && op <= kScaleUniformly`. -/
def ScaleOp (op : MatrixOperationType) : Bool :=
  decide (MatrixOperationType.kScaleX.val ≤ op.val) &&
    decide (op.val ≤ MatrixOperationType.kScaleUniformly.val)

/-- Source `Tolerances` from the source.  The two derivative-angle fields are
stored by the tangent of the angle (see the file comment): a source
tolerance of `θ` radians, `θ ∈ (0, π/2)`, corresponds to the field value
`tan θ` here. -/
structure Tolerances where
  scale : ℚ
  rotate : ℚ
  translate : ℚ
  derivative_angle : ℚ
  repeat_derivative_angle : ℚ
deriving Repr

/-- Source `FlatAnim::ToleranceForOp`: pick the value tolerance for an operation
kind; `0.1f` for ops that are neither rotate, translate nor scale. -/
def ToleranceForOp (tolerances : Tolerances) (op : MatrixOperationType) : ℚ :=
  if RotateOp op then tolerances.rotate
  else if TranslateOp op then tolerances.translate
  else if ScaleOp op then tolerances.scale
  else 1 / 10

/-- Source `FlatAnim::Channel`: one animated scalar quantity.  The `id` field is
`MatrixOpId`; bone name / parent index live on `Bone`. -/
structure Channel where
  op : MatrixOperationType
  id : ℤ
  nodes : List SplineNode
deriving DecidableEq, Repr

instance : Inhabited Channel := ⟨⟨default, 0, []⟩⟩

/-- Source `FlatAnim::Bone`, restricted to the animation payload: the ordered
channel list (the bone name and parent index play no part in the
properties verified here). -/
structure Bone where
  channels : List Channel
deriving DecidableEq, Repr

/-- Modelled from the spec: `motive::RepeatPreference` consumed by
`FlatAnim::Repeat`. -/
inductive RepeatPreference where
  | kNeverRepeat | kAlwaysRepeat | kRepeatIfRepeatable
deriving DecidableEq, Repr

/-- Cubic polynomial coefficients over a local window starting at 0:
`c(t) = c0 + c1 t + c2 t² + c3 t³` (motive `CubicCurve`). -/
structure CubicCurve where
  c0 : ℚ
  c1 : ℚ
  c2 : ℚ
  c3 : ℚ
deriving DecidableEq, Repr

/-- Source `CubicCurve::Evaluate`: closed-form polynomial evaluation. -/
def CubicCurve.Evaluate (c : CubicCurve) (t : ℚ) : ℚ :=
  c.c0 + c.c1 * t + c.c2 * t ^ 2 + c.c3 * t ^ 3

/-- Source `CubicCurve::Derivative`: closed-form derivative evaluation. -/
def CubicCurve.Derivative (c : CubicCurve) (t : ℚ) : ℚ :=
  c.c1 + 2 * c.c2 * t + 3 * c.c3 * t ^ 2

/-- Modelled from the spec: `CubicInit` (motive math library, not among the
sources verified here) — "construct a cubic polynomial from two endpoint
(value, derivative) pairs and a width … the unique cubic with matching
value and first derivative at both `0` and `width` (standard two-point
Hermite cubic; degenerate to a line when `width == 0`, returning the start
values as a constant)". -/
def cubicInit (v0 d0 v1 d1 w : ℚ) : CubicCurve :=
  if w = 0 then ⟨v0, d0, 0, 0⟩
  else
    { c0 := v0
      c1 := d0
      c2 := (3 * (v1 - v0) - (2 * d0 + d1) * w) / w ^ 2
      c3 := (2 * (v0 - v1) + (d0 + d1) * w) / w ^ 3 }

/-- The Hermite construction matches the start value at `0`. -/
theorem cubicInit_eval_zero (v0 d0 v1 d1 w : ℚ) :
    (cubicInit v0 d0 v1 d1 w).Evaluate 0 = v0 := by
  unfold cubicInit CubicCurve.Evaluate
  split <;> ring

/-- The Hermite construction matches the end value at `w`. -/
theorem cubicInit_eval_width (v0 d0 v1 d1 w : ℚ) (hw : w ≠ 0) :
    (cubicInit v0 d0 v1 d1 w).Evaluate w = v1 := by
  unfold cubicInit CubicCurve.Evaluate
  rw [if_neg hw]
  field_simp
  ring

/-! ### `FlatAnim::AddCurve`: adaptive-subdivision curve fitting

The source receives parallel arrays `vals`/`derivatives` of length `count`
and assumes the samples uniformly spaced over `[time_start, time_end]`;
the embedding carries one list `s` of `(value, derivative)` pairs. -/

/-- The worst-sample scan inside `AddCurve`: walk the interior samples
(loop `for i = 1; i < count - 1`), tracking `(worst_idx, worst_diff,
worst_time)`; an entry updates the accumulator only when its deviation is
strictly greater (`diff_val > worst_diff`).  `l` is the remaining sample
list (the last element is never scanned), `i` the index of its head. -/
def findWorstAux (c : CubicCurve) (inc : ℚ) :
    List (ℚ × ℚ) → ℕ → ℕ × ℚ × ℚ → ℕ × ℚ × ℚ
  | [], _, acc => acc
  | v :: rest, i, acc =>
    match rest with
    | [] => acc
    | _ :: _ =>
      let diff := |c.Evaluate ((i : ℚ) * inc) - v.1|
      findWorstAux c inc rest (i + 1)
        (if acc.2.1 < diff then (i, diff, (i : ℚ) * inc) else acc)

/-- Worst interior sample of the whole range: the scan starts at index 1
with accumulator `(0, 0, 0)` (in exact arithmetic the accumulated `time`
of the source equals `i * time_inc`). -/
def findWorst (c : CubicCurve) (inc : ℚ) (s : List (ℚ × ℚ)) : ℕ × ℚ × ℚ :=
  findWorstAux c inc s.tail 1 (0, 0, 0)

/-- The cubic spanning the full sample range, built from the first and
last sample and shifted to start at local time 0:
`CubicInit(vals[0], derivatives[0], vals[count-1], derivatives[count-1], time_width)`. -/
def fitCubic (t0 t1 : ℤ) (s : List (ℚ × ℚ)) : CubicCurve :=
  cubicInit (s.headD (0, 0)).1 (s.headD (0, 0)).2
    (s.getLastD (0, 0)).1 (s.getLastD (0, 0)).2 ((t1 - t0 : ℤ) : ℚ)

/-- Source `time_inc = time_width / (count - 1)`. -/
def sampleInc (t0 t1 : ℤ) (s : List (ℚ × ℚ)) : ℚ :=
  ((t1 - t0 : ℤ) : ℚ) / ((s.length - 1 : ℕ) : ℚ)

/-- Assumed time of the `i`-th input sample (uniform spacing). -/
def sampleTime (t0 t1 : ℤ) (s : List (ℚ × ℚ)) (i : ℕ) : ℚ :=
  (t0 : ℚ) + (i : ℚ) * sampleInc t0 t1 s

/-- The `(worst_idx, worst_diff, worst_time)` triple `AddCurve` computes
for the range `[t0, t1]` with samples `s`. -/
def worstFit (t0 t1 : ℤ) (s : List (ℚ × ℚ)) : ℕ × ℚ × ℚ :=
  findWorst (fitCubic t0 t1 s) (sampleInc t0 t1 s) s

/-- Predicate: `AddCurve` accepts the range (records the cubic) exactly when the
split condition `worst_idx > 0 && worst_diff > tolerance` fails. -/
def acceptsRange (tol : ℚ) (t0 t1 : ℤ) (s : List (ℚ × ℚ)) : Prop :=
  ¬(0 < (worstFit t0 t1 s).1 ∧ tol < (worstFit t0 t1 s).2.1)

instance (tol : ℚ) (t0 t1 : ℤ) (s : List (ℚ × ℚ)) :
    Decidable (acceptsRange tol t0 t1 s) := by
  unfold acceptsRange; infer_instance

/-- Source `start_node = SplineNode(time_start, vals[0], derivatives[0])`. -/
def startNode (t0 : ℤ) (s : List (ℚ × ℚ)) : SplineNode :=
  ⟨t0, (s.headD (0, 0)).1, (s.headD (0, 0)).2⟩

/-- Source `end_node = SplineNode(time_end, vals[count-1], derivatives[count-1])`. -/
def endNode (t1 : ℤ) (s : List (ℚ × ℚ)) : SplineNode :=
  ⟨t1, (s.getLastD (0, 0)).1, (s.getLastD (0, 0)).2⟩

/-- Source `FlatAnim::AddCurve`, fuelled.  `n` is the channel's node list so far.
The fuel only bounds the recursion depth: each split strictly reduces
`s.length` (proved in `AddCurve_subdivides`), so fuel `s.length` is always
sufficient; out of fuel (never reached from `AddCurve`) returns `n`.
The source precondition `count ≥ 2` is mirrored by returning `n`
unchanged when `s.length < 2`.  On a split, `time_mid = time_start +
static_cast<FlatTime>(worst_time)` truncates the (nonnegative) float
`worst_time`, which is `⌊worst_time⌋`; the two recursive calls receive
`vals[0..worst_idx]` and `vals[worst_idx..count-1]`.  On accept, the start
node is pushed only if it differs from the previously pushed back node
(`n.back() == start_node`, exact equality), then the end node is pushed. -/
def AddCurveF : ℕ → ℚ → List SplineNode → ℤ → ℤ → List (ℚ × ℚ) → List SplineNode
  | 0, _, n, _, _, _ => n
  | f + 1, tol, n, t0, t1, s =>
    if s.length < 2 then n
    else
      let w := worstFit t0 t1 s
      if 0 < w.1 ∧ tol < w.2.1 then
        let tMid := t0 + ⌊w.2.2⌋
        AddCurveF f tol (AddCurveF f tol n t0 tMid (s.take (w.1 + 1)))
          tMid t1 (s.drop w.1)
      else
        (if n ≠ [] ∧ n.getLastD default = startNode t0 s then n
         else n ++ [startNode t0 s]) ++ [endNode t1 s]

/-- Source `FlatAnim::AddCurve` with sufficient fuel. -/
def AddCurve (tol : ℚ) (n : List SplineNode) (t0 t1 : ℤ)
    (s : List (ℚ × ℚ)) : List SplineNode :=
  AddCurveF s.length tol n t0 t1 s

/-- Cubic reconstructed from two spline nodes over their time span
(two-point Hermite), as used at every consumer of adjacent nodes. -/
def cubicFromNodes (a b : SplineNode) : CubicCurve :=
  cubicInit a.val a.derivative b.val b.derivative ((b.time - a.time : ℤ) : ℚ)

theorem cubicFromNodes_start_end (t0 t1 : ℤ) (s : List (ℚ × ℚ)) :
    cubicFromNodes (startNode t0 s) (endNode t1 s) = fitCubic t0 t1 s := rfl

theorem findWorstAux_cons (c : CubicCurve) (inc : ℚ) (v w : ℚ × ℚ)
    (rest : List (ℚ × ℚ)) (i : ℕ) (acc : ℕ × ℚ × ℚ) :
    findWorstAux c inc (v :: w :: rest) i acc =
      findWorstAux c inc (w :: rest) (i + 1)
        (if acc.2.1 < |c.Evaluate ((i : ℚ) * inc) - v.1|
         then (i, |c.Evaluate ((i : ℚ) * inc) - v.1|, (i : ℚ) * inc)
         else acc) := rfl

theorem findWorstAux_singleton (c : CubicCurve) (inc : ℚ)
    (l : List (ℚ × ℚ)) (i : ℕ) (acc : ℕ × ℚ × ℚ) (h : l.length ≤ 1) :
    findWorstAux c inc l i acc = acc := by
  match l with
  | [] => rfl
  | [v] => rfl
  | v :: w :: rest => simp at h

/-- The scan only ever stores an index of an element it visited: starting
at head index `i` it never visits the final element, so the resulting
index is at most `i + length - 2` (or the initial one). -/
theorem findWorstAux_fst_le (c : CubicCurve) (inc : ℚ) (B : ℕ) :
    ∀ (l : List (ℚ × ℚ)) (i : ℕ) (acc : ℕ × ℚ × ℚ),
      acc.1 ≤ B → i + l.length ≤ B + 2 → (findWorstAux c inc l i acc).1 ≤ B := by
  intro l
  induction l with
  | nil => intro i acc hacc _; exact hacc
  | cons v rest ih =>
    intro i acc hacc hlen
    match rest with
    | [] => exact hacc
    | w :: rest' =>
      rw [findWorstAux_cons]
      refine ih (i + 1) _ ?_ ?_
      · split
        · simp only []
          simp only [List.length_cons] at hlen
          omega
        · exact hacc
      · simp only [List.length_cons] at hlen ⊢
        omega

/-- The tracked worst deviation never decreases along the scan. -/
theorem findWorstAux_snd_mono (c : CubicCurve) (inc : ℚ) :
    ∀ (l : List (ℚ × ℚ)) (i : ℕ) (acc : ℕ × ℚ × ℚ),
      acc.2.1 ≤ (findWorstAux c inc l i acc).2.1 := by
  intro l
  induction l with
  | nil => intro i acc; exact le_refl _
  | cons v rest ih =>
    intro i acc
    match rest with
    | [] => exact le_refl _
    | w :: rest' =>
      rw [findWorstAux_cons]
      refine le_trans ?_ (ih (i + 1) _)
      split
      · next h => exact le_of_lt h
      · exact le_refl _

/-- Every deviation examined by the scan is at most the resulting worst
deviation. -/
theorem findWorstAux_dominates (c : CubicCurve) (inc : ℚ) :
    ∀ (l : List (ℚ × ℚ)) (i : ℕ) (acc : ℕ × ℚ × ℚ) (j : ℕ), j + 1 < l.length →
      |c.Evaluate (((i + j : ℕ) : ℚ) * inc) - (l.getD j (0, 0)).1| ≤
        (findWorstAux c inc l i acc).2.1 := by
  intro l
  induction l with
  | nil => intro i acc j hj; simp at hj
  | cons v rest ih =>
    intro i acc j hj
    match rest with
    | [] => simp at hj
    | w :: rest' =>
      rw [findWorstAux_cons]
      match j with
      | 0 =>
        simp only [Nat.add_zero, List.getD_cons_zero]
        refine le_trans ?_ (findWorstAux_snd_mono c inc _ (i + 1) _)
        split
        · next h => exact le_refl _
        · next h => exact le_of_not_lt h
      | j' + 1 =>
        have := ih (i + 1) (if acc.2.1 < |c.Evaluate ((i : ℚ) * inc) - v.1|
            then (i, |c.Evaluate ((i : ℚ) * inc) - v.1|, (i : ℚ) * inc)
            else acc) j' (by simpa using Nat.lt_of_succ_lt_succ hj)
        have harg : i + 1 + j' = i + (j' + 1) := by omega
        rw [harg] at this
        simpa [List.getD] using this

/-- If the scan never updated the accumulator index away from `0`, the
accumulator was never updated at all (indices stored are the positive
visit indices). -/
theorem findWorstAux_fst_zero (c : CubicCurve) (inc : ℚ) :
    ∀ (l : List (ℚ × ℚ)) (i : ℕ) (acc : ℕ × ℚ × ℚ), 0 < i →
      (findWorstAux c inc l i acc).1 = 0 → findWorstAux c inc l i acc = acc := by
  intro l
  induction l with
  | nil => intro i acc _ _; rfl
  | cons v rest ih =>
    intro i acc hi h0
    match rest with
    | [] => rfl
    | w :: rest' =>
      rw [findWorstAux_cons] at h0 ⊢
      by_cases hcond : acc.2.1 < |c.Evaluate ((i : ℚ) * inc) - v.1|
      · exfalso
        rw [if_pos hcond] at h0
        have := ih (i + 1) _ (by omega) h0
        rw [this] at h0
        have h0' : i = 0 := by simpa using h0
        omega
      · rw [if_neg hcond] at h0 ⊢
        exact ih (i + 1) _ (by omega) h0

theorem tail_getD {α : Type _} (s : List α) (i : ℕ) (d : α) (hi : 0 < i) :
    s.tail.getD (i - 1) d = s.getD i d := by
  match s, i with
  | [], i => simp [List.getD]
  | a :: rest, i + 1 => simp [List.getD]

/-- Bound: `worst_idx` is at most `count - 2`: the scan covers only interior
samples. -/
theorem worstFit_fst_le (t0 t1 : ℤ) (s : List (ℚ × ℚ)) (h : 2 ≤ s.length) :
    (worstFit t0 t1 s).1 + 2 ≤ s.length := by
  have := findWorstAux_fst_le (fitCubic t0 t1 s) (sampleInc t0 t1 s)
    (s.length - 2) s.tail 1 (0, 0, 0) (by simp)
    (by simp only [List.length_tail]; omega)
  unfold worstFit findWorst
  omega

/-- Every interior deviation is at most `worst_diff`. -/
theorem worstFit_dominates (t0 t1 : ℤ) (s : List (ℚ × ℚ)) (i : ℕ)
    (h1 : 0 < i) (h2 : i + 1 < s.length) :
    |(fitCubic t0 t1 s).Evaluate ((i : ℚ) * sampleInc t0 t1 s) -
        (s.getD i (0, 0)).1| ≤ (worstFit t0 t1 s).2.1 := by
  have := findWorstAux_dominates (fitCubic t0 t1 s) (sampleInc t0 t1 s)
    s.tail 1 (0, 0, 0) (i - 1)
    (by simp only [List.length_tail]; omega)
  rw [tail_getD s i (0, 0) h1] at this
  have harg : 1 + (i - 1) = i := by omega
  rw [harg] at this
  exact this

/-- If `worst_idx = 0` then the accumulator was never updated and
`worst_diff = 0`. -/
theorem worstFit_fst_zero (t0 t1 : ℤ) (s : List (ℚ × ℚ))
    (h : (worstFit t0 t1 s).1 = 0) : (worstFit t0 t1 s).2.1 = 0 := by
  unfold worstFit findWorst at h ⊢
  rw [findWorstAux_fst_zero _ _ s.tail 1 (0, 0, 0) (by omega) h]

/-- With exactly two samples there are no interior samples: the scan
returns the initial accumulator and the range is accepted. -/
theorem acceptsRange_of_two (tol : ℚ) (t0 t1 : ℤ) (s : List (ℚ × ℚ))
    (h : s.length = 2) : acceptsRange tol t0 t1 s := by
  unfold acceptsRange worstFit findWorst
  rw [findWorstAux_singleton _ _ s.tail 1 (0, 0, 0)
    (by simp only [List.length_tail]; omega)]
  simp

/-- One-step unfolding of the fuelled `AddCurve`. -/
theorem AddCurveF_succ (f : ℕ) (tol : ℚ) (n : List SplineNode) (t0 t1 : ℤ)
    (s : List (ℚ × ℚ)) :
    AddCurveF (f + 1) tol n t0 t1 s =
      if s.length < 2 then n
      else if 0 < (worstFit t0 t1 s).1 ∧ tol < (worstFit t0 t1 s).2.1 then
        AddCurveF f tol
          (AddCurveF f tol n t0 (t0 + ⌊(worstFit t0 t1 s).2.2⌋)
            (s.take ((worstFit t0 t1 s).1 + 1)))
          (t0 + ⌊(worstFit t0 t1 s).2.2⌋) t1 (s.drop (worstFit t0 t1 s).1)
      else
        (if n ≠ [] ∧ n.getLastD default = startNode t0 s then n
         else n ++ [startNode t0 s]) ++ [endNode t1 s] := rfl

/-- Short samples (`count < 2`, outside the source's precondition) are
returned unchanged at any fuel. -/
theorem AddCurveF_short (f : ℕ) (tol : ℚ) (n : List SplineNode) (t0 t1 : ℤ)
    (s : List (ℚ × ℚ)) (h : s.length < 2) : AddCurveF f tol n t0 t1 s = n := by
  match f with
  | 0 => rfl
  | f + 1 => rw [AddCurveF_succ, if_pos h]

/-- Any fuel of at least `s.length` computes `AddCurve`: each split hands
strictly fewer samples to each recursive call, so the recursion always
bottoms out within `s.length` levels. -/
theorem AddCurveF_fuel (tol : ℚ) :
    ∀ (f : ℕ) (s : List (ℚ × ℚ)) (n : List SplineNode) (t0 t1 : ℤ),
      s.length ≤ f → AddCurveF f tol n t0 t1 s = AddCurve tol n t0 t1 s := by
  intro f
  induction f using Nat.strong_induction_on with
  | _ f ih =>
    intro s n t0 t1 hf
    match f with
    | 0 =>
      have h0 : s.length = 0 := by omega
      rw [AddCurve, h0]
    | f + 1 =>
      by_cases hs : s.length < 2
      · rw [AddCurveF_short _ _ _ _ _ _ hs, AddCurve,
          AddCurveF_short _ _ _ _ _ _ hs]
      · push_neg at hs
        obtain ⟨L, hL⟩ : ∃ L, s.length = L + 1 := ⟨s.length - 1, by omega⟩
        have hbound := worstFit_fst_le t0 t1 s hs
        rw [AddCurve, hL, AddCurveF_succ, AddCurveF_succ]
        have hg : ¬s.length < 2 := by omega
        by_cases hsplit : 0 < (worstFit t0 t1 s).1 ∧ tol < (worstFit t0 t1 s).2.1
        · rw [if_neg hg, if_neg hg, if_pos hsplit, if_pos hsplit]
          have hTake : (s.take ((worstFit t0 t1 s).1 + 1)).length ≤ L := by
            simp only [List.length_take]
            omega
          have hDrop : (s.drop (worstFit t0 t1 s).1).length ≤ L := by
            simp only [List.length_drop]
            omega
          rw [ih f (by omega) _ n t0 _ (le_trans hTake (by omega)),
            ih L (by omega) _ n t0 _ hTake,
            ih f (by omega) _ _ _ t1 (le_trans hDrop (by omega)),
            ih L (by omega) _ _ _ t1 hDrop]
        · rw [if_neg hg, if_neg hg, if_neg hsplit, if_neg hsplit]

/-- C1 (amended): when `AddCurve` accepts a sub-range, the cubic
reconstructed from the two nodes it emits for that sub-range (two-point
Hermite over their time span), evaluated at every original sample time
strictly between them, differs from the original sample value by at most
the channel tolerance `τ` (not strictly less: equality can occur, see the
counterexample). -/
theorem AddCurve_fit_bound (tol : ℚ) (t0 t1 : ℤ) (s : List (ℚ × ℚ))
    (_h2 : 2 ≤ s.length) (htol : 0 < tol) (hacc : acceptsRange tol t0 t1 s)
    (i : ℕ) (hi : 0 < i) (hi2 : i + 1 < s.length) :
    |(cubicFromNodes (startNode t0 s) (endNode t1 s)).Evaluate
        (sampleTime t0 t1 s i - ((startNode t0 s).time : ℚ)) -
      (s.getD i (0, 0)).1| ≤ tol := by
  have hd := worstFit_dominates t0 t1 s i hi hi2
  have heval : sampleTime t0 t1 s i - ((startNode t0 s).time : ℚ) =
      (i : ℚ) * sampleInc t0 t1 s := by
    simp [sampleTime, startNode]
  rw [cubicFromNodes_start_end, heval]
  unfold acceptsRange at hacc
  rcases not_and_or.mp hacc with h | h
  · have h0 : (worstFit t0 t1 s).1 = 0 := by omega
    have hz := worstFit_fst_zero t0 t1 s h0
    rw [hz] at hd
    exact le_trans hd (le_of_lt htol)
  · exact le_trans hd (le_of_not_lt h)

/-- Witness for `AddCurve_fit_bound` at a concrete accepted range. -/
theorem AddCurve_fit_bound_witness :
    (2 ≤ ([((0 : ℚ), (0 : ℚ)), (0, 0), (0, 0)] : List (ℚ × ℚ)).length ∧
      (0 : ℚ) < 1 ∧ acceptsRange 1 0 2 [((0 : ℚ), (0 : ℚ)), (0, 0), (0, 0)]) ∧
    |(cubicFromNodes (startNode 0 [((0 : ℚ), (0 : ℚ)), (0, 0), (0, 0)])
        (endNode 2 [((0 : ℚ), (0 : ℚ)), (0, 0), (0, 0)])).Evaluate
        (sampleTime 0 2 [((0 : ℚ), (0 : ℚ)), (0, 0), (0, 0)] 1 -
          ((startNode 0 [((0 : ℚ), (0 : ℚ)), (0, 0), (0, 0)]).time : ℚ)) -
      (([((0 : ℚ), (0 : ℚ)), (0, 0), (0, 0)]).getD 1 (0, 0)).1| ≤ 1 := by
  have hacc : acceptsRange 1 0 2 [((0 : ℚ), (0 : ℚ)), (0, 0), (0, 0)] := by
    norm_num [acceptsRange, worstFit, findWorst, findWorstAux, fitCubic,
      sampleInc, cubicInit, CubicCurve.Evaluate]
  exact ⟨⟨by norm_num, by norm_num, hacc⟩,
    AddCurve_fit_bound 1 0 2 _ (by norm_num) (by norm_num) hacc 1
      (by norm_num) (by norm_num)⟩

/-- C1, counterexample to the claim as stated: on samples
`vals = [0, 1/100, 0]`, `derivatives = [0, 0, 0]` over `[0, 2]` with
tolerance `τ = 1/100`, the range is accepted (`worst_diff = τ` is not
`> τ`) and `AddCurve` emits exactly the two nodes `(0,0,0)` and `(2,0,0)`;
the cubic reconstructed from that adjacent emitted pair evaluated at the
interior sample time `1` differs from the sample value `1/100` by exactly
`τ`, which is not `< τ`. -/
theorem AddCurve_fit_bound_strict_cex :
    acceptsRange (1 / 100) 0 2 [((0 : ℚ), (0 : ℚ)), (1 / 100, 0), (0, 0)] ∧
    AddCurve (1 / 100) [] 0 2 [((0 : ℚ), (0 : ℚ)), (1 / 100, 0), (0, 0)] =
      [⟨0, 0, 0⟩, ⟨2, 0, 0⟩] ∧
    ¬(|(cubicFromNodes (⟨0, 0, 0⟩ : SplineNode) (⟨2, 0, 0⟩ : SplineNode)).Evaluate
        (sampleTime 0 2 [((0 : ℚ), (0 : ℚ)), (1 / 100, 0), (0, 0)] 1 - ((0 : ℤ) : ℚ)) -
      (([((0 : ℚ), (0 : ℚ)), (1 / 100, 0), (0, 0)]).getD 1 (0, 0)).1| < 1 / 100) := by
  refine ⟨?_, ?_, ?_⟩ <;>
    norm_num [acceptsRange, AddCurve, AddCurveF, worstFit, findWorst,
      findWorstAux, fitCubic, sampleInc, sampleTime, cubicInit,
      CubicCurve.Evaluate, cubicFromNodes, startNode, endNode, List.getD,
      abs_of_nonneg, abs_of_nonpos, abs_neg]

/-- C2: `AddCurve` on `count ≥ 2` samples terminates: any fuel of at
least the sample count computes the same result (the recursion bottoms
out), a range of exactly 2 samples is always accepted without further
recursion, and when the range is split both recursive calls receive at
least 2 and strictly fewer samples than their caller. -/
theorem AddCurve_terminates (tol : ℚ) (t0 t1 : ℤ) (s : List (ℚ × ℚ))
    (h2 : 2 ≤ s.length) :
    (∀ (f : ℕ) (n : List SplineNode), s.length ≤ f →
      AddCurveF f tol n t0 t1 s = AddCurve tol n t0 t1 s) ∧
    (s.length = 2 → acceptsRange tol t0 t1 s) ∧
    (¬acceptsRange tol t0 t1 s →
      2 ≤ (s.take ((worstFit t0 t1 s).1 + 1)).length ∧
      (s.take ((worstFit t0 t1 s).1 + 1)).length < s.length ∧
      2 ≤ (s.drop (worstFit t0 t1 s).1).length ∧
      (s.drop (worstFit t0 t1 s).1).length < s.length) := by
  refine ⟨fun f n hf => AddCurveF_fuel tol f s n t0 t1 hf,
    fun hlen => acceptsRange_of_two tol t0 t1 s hlen, fun hns => ?_⟩
  unfold acceptsRange at hns
  have hsplit := not_not.mp hns
  have hb := worstFit_fst_le t0 t1 s h2
  have h1 := hsplit.1
  simp only [List.length_take, List.length_drop]
  omega

/-- Witness for `AddCurve_terminates` on a concrete 3-sample range
(which the fitter splits): both recursive calls receive 2 samples. -/
theorem AddCurve_terminates_witness :
    2 ≤ ([((0 : ℚ), (0 : ℚ)), (10, 0), (0, 0)] : List (ℚ × ℚ)).length ∧
    (¬acceptsRange (1 / 100) 0 2 [((0 : ℚ), (0 : ℚ)), (10, 0), (0, 0)] →
      2 ≤ (([((0 : ℚ), (0 : ℚ)), (10, 0), (0, 0)] : List (ℚ × ℚ)).take
            ((worstFit 0 2 [((0 : ℚ), (0 : ℚ)), (10, 0), (0, 0)]).1 + 1)).length ∧
      (([((0 : ℚ), (0 : ℚ)), (10, 0), (0, 0)] : List (ℚ × ℚ)).take
            ((worstFit 0 2 [((0 : ℚ), (0 : ℚ)), (10, 0), (0, 0)]).1 + 1)).length <
        ([((0 : ℚ), (0 : ℚ)), (10, 0), (0, 0)] : List (ℚ × ℚ)).length ∧
      2 ≤ (([((0 : ℚ), (0 : ℚ)), (10, 0), (0, 0)] : List (ℚ × ℚ)).drop
            (worstFit 0 2 [((0 : ℚ), (0 : ℚ)), (10, 0), (0, 0)]).1).length ∧
      (([((0 : ℚ), (0 : ℚ)), (10, 0), (0, 0)] : List (ℚ × ℚ)).drop
            (worstFit 0 2 [((0 : ℚ), (0 : ℚ)), (10, 0), (0, 0)]).1).length <
        ([((0 : ℚ), (0 : ℚ)), (10, 0), (0, 0)] : List (ℚ × ℚ)).length) :=
  ⟨by norm_num,
    (AddCurve_terminates (1 / 100) 0 2 [((0 : ℚ), (0 : ℚ)), (10, 0), (0, 0)]
      (by norm_num)).2.2⟩

/-- C9: whenever `AddCurve` accepts a sub-range, it appends the
sub-range's end node, and appends the start node only when the channel is
empty or the start node differs (by `SplineNode::operator==`, i.e. exact
componentwise equality) from the last already-emitted node; a start node
equal to the immediately preceding emitted end node is never pushed. -/
theorem AddCurve_accept_emit (tol : ℚ) (n : List SplineNode) (t0 t1 : ℤ)
    (s : List (ℚ × ℚ)) (h2 : 2 ≤ s.length) (hacc : acceptsRange tol t0 t1 s) :
    AddCurve tol n t0 t1 s =
      (if n ≠ [] ∧ n.getLastD default = startNode t0 s then n
       else n ++ [startNode t0 s]) ++ [endNode t1 s] := by
  obtain ⟨L, hL⟩ : ∃ L, s.length = L + 1 := ⟨s.length - 1, by omega⟩
  unfold acceptsRange at hacc
  rw [AddCurve, hL, AddCurveF_succ, if_neg (show ¬s.length < 2 by omega),
    if_neg hacc]

/-- Witness for `AddCurve_accept_emit` on a channel whose last emitted
node differs from the new start node. -/
theorem AddCurve_accept_emit_witness :
    (2 ≤ ([((1 : ℚ), (0 : ℚ)), (1, 0)] : List (ℚ × ℚ)).length ∧
      acceptsRange 1 10 20 [((1 : ℚ), (0 : ℚ)), (1, 0)]) ∧
    AddCurve 1 [⟨0, 5, 0⟩] 10 20 [((1 : ℚ), (0 : ℚ)), (1, 0)] =
      (if [(⟨0, 5, 0⟩ : SplineNode)] ≠ [] ∧
          ([(⟨0, 5, 0⟩ : SplineNode)]).getLastD default =
            startNode 10 [((1 : ℚ), (0 : ℚ)), (1, 0)] then [(⟨0, 5, 0⟩ : SplineNode)]
       else [(⟨0, 5, 0⟩ : SplineNode)] ++ [startNode 10 [((1 : ℚ), (0 : ℚ)), (1, 0)]]) ++
        [endNode 20 [((1 : ℚ), (0 : ℚ)), (1, 0)]] := by
  have hacc : acceptsRange 1 10 20 [((1 : ℚ), (0 : ℚ)), (1, 0)] :=
    acceptsRange_of_two 1 10 20 _ (by norm_num)
  exact ⟨⟨by norm_num, hacc⟩,
    AddCurve_accept_emit 1 [⟨0, 5, 0⟩] 10 20 _ (by norm_num) hacc⟩

/-! ### Derivative angles

`DerivativeAngle(d) = atan(d)` appears in the source only as
`fabs(DerivativeAngle e) < θ` for an angle tolerance `θ`.  The embedding
stores angle tolerances by their tangent and compares `|e| < tan θ`
directly; the next two lemmas prove this encoding exact. -/

/-- Key fact `|atan x| < atan t ↔ |x| < t`: comparing a derivative angle against
the angle `atan t` is the same as comparing the derivative against `t`. -/
theorem abs_arctan_lt_arctan_iff (x t : ℝ) :
    |Real.arctan x| < Real.arctan t ↔ |x| < t := by
  have habs : |Real.arctan x| = Real.arctan |x| := by
    rcases abs_cases x with ⟨h1, h2⟩ | ⟨h1, h2⟩
    · rw [h1, abs_of_nonneg]
      rw [← Real.arctan_zero]
      exact Real.arctan_strictMono.monotone h2
    · rw [h1, abs_of_neg (show Real.arctan x < 0 by
        rw [← Real.arctan_zero]
        exact Real.arctan_strictMono h2), ← Real.arctan_neg]
  rw [habs, Real.arctan_strictMono.lt_iff_lt]

/-- Rational version of `abs_arctan_lt_arctan_iff`. -/
theorem abs_arctan_ratCast_lt (x t : ℚ) :
    |Real.arctan (x : ℝ)| < Real.arctan (t : ℝ) ↔ |x| < t := by
  rw [abs_arctan_lt_arctan_iff, ← Rat.cast_abs, Rat.cast_lt]

/-! ### `FlatAnim::PruneNodes` and its helpers -/

/-- Source `FlatAnim::EqualNodes`: the source compares the times exactly, then
`fabs(a.val - a.val) < tolerance` — the value of node `a` against itself,
as written in the source — and the derivative-angle difference
`fabs(DerivativeAngle(a.derivative - b.derivative)) < derivative_tolerance`
(tangent encoding, see above). -/
def EqualNodes (a b : SplineNode) (tolerance derivative_tolerance : ℚ) : Bool :=
  a.time == b.time && decide (|a.val - a.val| < tolerance) &&
    decide (|a.derivative - b.derivative| < derivative_tolerance)

/-- Source `FlatAnim::IntermediateNodesRedundant` on the node segment
`n[i..j]` (passed as the segment list): true when the start and end node
are `EqualNodes`, or when every intermediate node lies on the cubic built
from the start and end node alone, within the value tolerance and the
derivative-angle tolerance. -/
def IntermediateNodesRedundant (seg : List SplineNode)
    (tolerance derivative_tolerance : ℚ) : Bool :=
  let start := seg.headD default
  let endN := seg.getLastD default
  if EqualNodes start endN tolerance derivative_tolerance then true
  else
    let c := cubicFromNodes start endN
    ((seg.drop 1).dropLast).all fun mid =>
      let midTime := ((mid.time - start.time : ℤ) : ℚ)
      decide (|c.Evaluate midTime - mid.val| < tolerance) &&
        decide (|c.Derivative midTime - mid.derivative| < derivative_tolerance)

/-- Inner loop of `PruneNodes` for anchor `i`: scan `j` over
`[i+2, n.size)`; whenever the segment `n[i..j]` is redundant, flag
`j - 1` for pruning and remember `next_i = j`.  Returns the flagged
indices (in scan order) and the final `next_i` (initially `i + 1`). -/
def pruneInner (n : List SplineNode) (tolerance derivative_tolerance : ℚ)
    (i : ℕ) : List ℕ × ℕ :=
  (List.range' (i + 2) (n.length - (i + 2))).foldl
    (fun acc j =>
      if IntermediateNodesRedundant ((n.drop i).take (j - i + 1))
          tolerance derivative_tolerance
      then (acc.1 ++ [j - 1], j) else acc)
    ([], i + 1)

/-- Outer loop of `PruneNodes`: from anchor `i`, run the inner scan and
continue from its `next_i`, collecting all flagged indices.  `next_i` is
always at least `i + 1` (`pruneInner_snd_ge`), so the source's `while`
loop makes at most `n.size` iterations; the fuel `n.size + 1` used by
`pruneMarks` therefore never runs out. -/
def pruneOuter (n : List SplineNode) (tolerance derivative_tolerance : ℚ) :
    ℕ → ℕ → List ℕ
  | 0, _ => []
  | fuel + 1, i =>
    if i < n.length then
      (pruneInner n tolerance derivative_tolerance i).1 ++
        pruneOuter n tolerance derivative_tolerance fuel
          (pruneInner n tolerance derivative_tolerance i).2
    else []

/-- The indices flagged for pruning over the whole node list. -/
def pruneMarks (n : List SplineNode) (tolerance derivative_tolerance : ℚ) :
    List ℕ :=
  pruneOuter n tolerance derivative_tolerance (n.length + 1) 0

/-- The compaction step of `PruneNodes`: keep the nodes whose index was
not flagged, in order. -/
def compactByMarks (marks : List ℕ) (n : List SplineNode) : List SplineNode :=
  (n.enum.filter fun p => !(marks.contains p.1)).map Prod.snd

/-- Embedding of `PruneNodes` up to (but not including) the final constant-collapse
step: flag redundant nodes, then compact. -/
def prunedCompact (tolerance derivative_tolerance : ℚ)
    (n : List SplineNode) : List SplineNode :=
  compactByMarks (pruneMarks n tolerance derivative_tolerance) n

/-- Source `FlatAnim::PruneNodes`: flag and remove redundant nodes, then, if
exactly two nodes remain whose values agree within tolerance and whose
derivative angles are both within the derivative-angle tolerance of zero,
drop the second node (`n.resize(1)`) so the channel becomes constant. -/
def PruneNodes (tolerance derivative_tolerance : ℚ)
    (n : List SplineNode) : List SplineNode :=
  let m := prunedCompact tolerance derivative_tolerance n
  if m.length = 2 ∧ |(m.headD default).val - (m.getD 1 default).val| < tolerance ∧
      |(m.headD default).derivative| < derivative_tolerance ∧
      |(m.getD 1 default).derivative| < derivative_tolerance
  then m.take 1 else m

/-- The inner scan's `next_i` is at least `i + 1`. -/
theorem pruneInner_snd_ge (n : List SplineNode) (tol dtol : ℚ) (i : ℕ) :
    i + 1 ≤ (pruneInner n tol dtol i).2 := by
  unfold pruneInner
  have : ∀ (js : List ℕ) (acc : List ℕ × ℕ), i + 1 ≤ acc.2 →
      (∀ j ∈ js, i + 1 ≤ j) →
      i + 1 ≤ (js.foldl (fun acc j =>
        if IntermediateNodesRedundant ((n.drop i).take (j - i + 1)) tol dtol
        then (acc.1 ++ [j - 1], j) else acc) acc).2 := by
    intro js
    induction js with
    | nil => intro acc h _; exact h
    | cons j rest ih =>
      intro acc h hmem
      simp only [List.foldl_cons]
      refine ih _ ?_ fun k hk => hmem k (List.mem_cons_of_mem _ hk)
      split
      · exact hmem j (List.mem_cons_self _ _)
      · exact h
  refine this _ _ (le_refl _) fun j hj => ?_
  have := List.mem_range'.mp hj
  omega

theorem filter_enumFrom_map_sublist {α : Type _} (q : ℕ × α → Bool) :
    ∀ (k : ℕ) (l : List α),
      (((List.enumFrom k l).filter q).map Prod.snd).Sublist l := by
  intro k l
  induction l generalizing k with
  | nil => simp
  | cons a t ih =>
    rw [List.enumFrom_cons, List.filter_cons]
    split
    · rw [List.map_cons]
      exact List.Sublist.cons₂ a (ih (k + 1))
    · exact (ih (k + 1)).cons a

/-- Compaction yields a sublist (order-preserving subsequence). -/
theorem compactByMarks_sublist (marks : List ℕ) (n : List SplineNode) :
    (compactByMarks marks n).Sublist n :=
  filter_enumFrom_map_sublist _ 0 n

/-- Lemma: `PruneNodes` yields a sublist of its input. -/
theorem PruneNodes_sublist (tol dtol : ℚ) (n : List SplineNode) :
    (PruneNodes tol dtol n).Sublist n := by
  unfold PruneNodes prunedCompact
  dsimp only
  split
  · exact (List.take_sublist 1 _).trans (compactByMarks_sublist _ n)
  · exact compactByMarks_sublist _ n

/-- C3: for every positive value tolerance, `EqualNodes(a, b, tolerance,
derivative_tolerance)` returns true iff `a.time == b.time` and the
derivative-angle difference `|atan(a.derivative - b.derivative)|` is below
the derivative-angle tolerance; since the value comparison is
`fabs(a.val - a.val)`, the result does not depend on `b.val` at all
(here: replacing `b.val` by any `v` leaves the result unchanged). -/
theorem EqualNodes_spec (a b : SplineNode) (tol dtol : ℚ) (htol : 0 < tol) :
    (EqualNodes a b tol dtol = true ↔
      (a.time = b.time ∧
        |Real.arctan ((a.derivative : ℝ) - (b.derivative : ℝ))| <
          Real.arctan (dtol : ℝ))) ∧
    (∀ v : ℚ, EqualNodes a ⟨b.time, v, b.derivative⟩ tol dtol =
      EqualNodes a b tol dtol) := by
  constructor
  · simp only [EqualNodes, Bool.and_eq_true, beq_iff_eq, decide_eq_true_eq,
      sub_self, abs_zero]
    rw [show (a.derivative : ℝ) - (b.derivative : ℝ) =
        ((a.derivative - b.derivative : ℚ) : ℝ) by push_cast; ring,
      abs_arctan_ratCast_lt]
    constructor
    · rintro ⟨⟨h1, _⟩, h3⟩
      exact ⟨h1, h3⟩
    · rintro ⟨h1, h3⟩
      exact ⟨⟨h1, htol⟩, h3⟩
  · intro v
    rfl

/-- Witness for `EqualNodes_spec`: two nodes with values `1` and `5` and
tolerance `1` nevertheless compare equal. -/
theorem EqualNodes_spec_witness :
    (0 : ℚ) < 1 ∧ EqualNodes ⟨0, 1, 0⟩ ⟨0, 5, 0⟩ 1 1 = true :=
  ⟨by norm_num,
    (EqualNodes_spec ⟨0, 1, 0⟩ ⟨0, 5, 0⟩ 1 1 (by norm_num)).1.mpr
      ⟨rfl, by simpa using (abs_arctan_ratCast_lt 0 1).mpr (by norm_num)⟩⟩

/-- C5: after compaction, a channel of exactly two nodes whose values
differ by less than the tolerance and whose derivative angles
`atan(derivative)` are both within the derivative-angle tolerance of zero
is collapsed by `PruneNodes` to just its first node; otherwise both nodes
are kept. -/
theorem PruneNodes_constant_collapse (tol dtol : ℚ) (n : List SplineNode)
    (h2 : (prunedCompact tol dtol n).length = 2) :
    ((|((prunedCompact tol dtol n).headD default).val -
        ((prunedCompact tol dtol n).getD 1 default).val| < tol ∧
      |Real.arctan ((((prunedCompact tol dtol n).headD default).derivative : ℚ) : ℝ)| <
        Real.arctan (dtol : ℝ) ∧
      |Real.arctan ((((prunedCompact tol dtol n).getD 1 default).derivative : ℚ) : ℝ)| <
        Real.arctan (dtol : ℝ)) →
      PruneNodes tol dtol n = [(prunedCompact tol dtol n).headD default]) ∧
    (¬(|((prunedCompact tol dtol n).headD default).val -
        ((prunedCompact tol dtol n).getD 1 default).val| < tol ∧
      |Real.arctan ((((prunedCompact tol dtol n).headD default).derivative : ℚ) : ℝ)| <
        Real.arctan (dtol : ℝ) ∧
      |Real.arctan ((((prunedCompact tol dtol n).getD 1 default).derivative : ℚ) : ℝ)| <
        Real.arctan (dtol : ℝ)) →
      PruneNodes tol dtol n = prunedCompact tol dtol n) := by
  constructor
  · intro hcond
    have hc1 := (abs_arctan_ratCast_lt _ _).mp hcond.2.1
    have hc2 := (abs_arctan_ratCast_lt _ _).mp hcond.2.2
    have hite : PruneNodes tol dtol n = (prunedCompact tol dtol n).take 1 := by
      unfold PruneNodes
      dsimp only
      rw [if_pos ⟨h2, hcond.1, hc1, hc2⟩]
    rw [hite]
    rcases hm : prunedCompact tol dtol n with _ | ⟨a, rest⟩
    · rw [hm] at h2
      simp at h2
    · simp
  · intro hcond
    have hcond' : ¬(|((prunedCompact tol dtol n).headD default).val -
        ((prunedCompact tol dtol n).getD 1 default).val| < tol ∧
        |((prunedCompact tol dtol n).headD default).derivative| < dtol ∧
        |((prunedCompact tol dtol n).getD 1 default).derivative| < dtol) :=
      fun hc => hcond ⟨hc.1, (abs_arctan_ratCast_lt _ _).mpr hc.2.1,
        (abs_arctan_ratCast_lt _ _).mpr hc.2.2⟩
    unfold PruneNodes
    dsimp only
    rw [if_neg fun hc => hcond' ⟨hc.2.1, hc.2.2.1, hc.2.2.2⟩]

/-- Witness for `PruneNodes_constant_collapse`: a two-node constant
channel collapses to its first node. -/
theorem PruneNodes_constant_collapse_witness :
    (prunedCompact 1 1 [⟨0, 0, 0⟩, ⟨5, 0, 0⟩]).length = 2 ∧
    PruneNodes 1 1 [⟨0, 0, 0⟩, ⟨5, 0, 0⟩] =
      [(prunedCompact 1 1 [⟨0, 0, 0⟩, ⟨5, 0, 0⟩]).headD default] := by
  have hpc : prunedCompact 1 1 [(⟨0, 0, 0⟩ : SplineNode), ⟨5, 0, 0⟩] =
      [⟨0, 0, 0⟩, ⟨5, 0, 0⟩] := by
    norm_num [prunedCompact, pruneMarks, pruneOuter, pruneInner,
      compactByMarks, List.range', List.enum, List.enumFrom]
  have h2 : (prunedCompact 1 1 [(⟨0, 0, 0⟩ : SplineNode), ⟨5, 0, 0⟩]).length = 2 := by
    rw [hpc]
    rfl
  refine ⟨h2, (PruneNodes_constant_collapse 1 1 _ h2).1 ?_⟩
  rw [hpc]
  refine ⟨by norm_num [List.getD], ?_, ?_⟩ <;>
    simpa using (abs_arctan_ratCast_lt 0 1).mpr (by norm_num)

set_option maxHeartbeats 1000000 in
/-- C7, counterexample: pruning is not idempotent.  On the four nodes
`(0,0,0), (1,7,0), (2,17,0), (3,27,0)` with value tolerance `1` (and a
derivative-angle tolerance of `atan 1000`, loose enough to be
inoperative), the first pass prunes only the node at time `2` (the span
`0..3` is not redundant because that node is off its cubic, while the
span `1..3` is redundant), after which the node at time `1` lies on the
cubic of the surviving span `0..3`, so a second pass prunes it too. -/
theorem PruneNodes_not_idempotent_cex :
    PruneNodes 1 1000 (PruneNodes 1 1000 [⟨0, 0, 0⟩, ⟨1, 7, 0⟩, ⟨2, 17, 0⟩, ⟨3, 27, 0⟩]) ≠
      PruneNodes 1 1000 [⟨0, 0, 0⟩, ⟨1, 7, 0⟩, ⟨2, 17, 0⟩, ⟨3, 27, 0⟩] := by
  have h1 : PruneNodes 1 1000 [⟨0, 0, 0⟩, ⟨1, 7, 0⟩, ⟨2, 17, 0⟩, ⟨3, 27, 0⟩] =
      [⟨0, 0, 0⟩, ⟨1, 7, 0⟩, ⟨3, 27, 0⟩] := by
    norm_num [PruneNodes, prunedCompact, pruneMarks, pruneOuter, pruneInner,
      compactByMarks, IntermediateNodesRedundant, EqualNodes, cubicFromNodes,
      cubicInit, CubicCurve.Evaluate, CubicCurve.Derivative, List.range',
      List.enum, List.enumFrom, List.getD, abs_of_nonneg, abs_of_nonpos, abs_neg]
  have hsecond : PruneNodes 1 1000 [(⟨0, 0, 0⟩ : SplineNode), ⟨1, 7, 0⟩, ⟨3, 27, 0⟩] =
      [⟨0, 0, 0⟩, ⟨3, 27, 0⟩] := by
    norm_num [PruneNodes, prunedCompact, pruneMarks, pruneOuter, pruneInner,
      compactByMarks, IntermediateNodesRedundant, EqualNodes, cubicFromNodes,
      cubicInit, CubicCurve.Evaluate, CubicCurve.Derivative, List.range',
      List.enum, List.enumFrom, List.getD, abs_of_nonneg, abs_of_nonpos, abs_neg]
  rw [h1, hsecond]
  intro heq
  have hlen := congrArg List.length heq
  simp only [List.length_cons, List.length_nil] at hlen
  omega

/-- C7 (amended): a second pruning pass may remove further nodes (see the
counterexample), but it never adds or reorders any: the result of pruning
twice is always a sublist of the result of pruning once. -/
theorem PruneNodes_twice_sublist (tol dtol : ℚ) (n : List SplineNode) :
    (PruneNodes tol dtol (PruneNodes tol dtol n)).Sublist (PruneNodes tol dtol n) :=
  PruneNodes_sublist tol dtol _

/-! ### `FlatAnim::SummableChannel` -/

/-- Loop body of `SummableChannel`: starting at absolute channel index
`start`, walk the remaining channels; return the first index whose op
equals `chOp`; bail out with `-1` when `chOp` is a rotate op, or when a
translate (resp. scale) `chOp` meets a non-translate (resp. non-scale)
op. -/
def summableChannelAux (chOp : MatrixOperationType) :
    List Channel → ℕ → ℤ
  | [], _ => -1
  | c :: rest, start =>
    if c.op = chOp then (start : ℤ)
    else if RotateOp chOp then -1
    else if TranslateOp chOp && !TranslateOp c.op then -1
    else if ScaleOp chOp && !ScaleOp c.op then -1
    else summableChannelAux chOp rest (start + 1)

/-- Source `FlatAnim::SummableChannel`: find a later channel that can be summed
into channel `ch`, or `-1`. -/
def SummableChannel (channels : List Channel) (ch : ℕ) : ℤ :=
  summableChannelAux (channels.getD ch default).op (channels.drop (ch + 1)) (ch + 1)

theorem drop_getD {α : Type _} (d : α) :
    ∀ (n : ℕ) (l : List α) (m : ℕ), (l.drop n).getD m d = l.getD (n + m) d := by
  intro n
  induction n with
  | zero => intro l m; simp
  | succ n ih =>
    intro l m
    match l with
    | [] => simp [List.getD]
    | a :: t =>
      have : n + 1 + m = (n + m) + 1 := by omega
      simp only [List.drop_succ_cons, ih t m, this, List.getD_cons_succ]

theorem summableChannelAux_spec (chOp : MatrixOperationType) :
    ∀ (l : List Channel) (start : ℕ) (j : ℕ),
      summableChannelAux chOp l start = (j : ℤ) →
      start ≤ j ∧ j - start < l.length ∧ (l.getD (j - start) default).op = chOp ∧
      ∀ k, start ≤ k → k < j →
        (l.getD (k - start) default).op ≠ chOp ∧
        RotateOp chOp = false ∧
        (TranslateOp chOp = true → TranslateOp (l.getD (k - start) default).op = true) ∧
        (ScaleOp chOp = true → ScaleOp (l.getD (k - start) default).op = true) := by
  intro l
  induction l with
  | nil =>
    intro start j h
    simp only [summableChannelAux] at h
    omega
  | cons c rest ih =>
    intro start j h
    simp only [summableChannelAux] at h
    split at h
    · -- c.op = chOp: found at `start`
      next heq =>
      have hj : j = start := by omega
      subst hj
      refine ⟨le_refl _, by simp, by simpa using heq, fun k hk1 hk2 => ?_⟩
      omega
    · split at h
      · -- rotate bail-out: -1 ≠ j
        omega
      · split at h
        · omega
        · split at h
          · omega
          · -- recurse
            next hne hrot htr hsc =>
            obtain ⟨h1, h2, h3, h4⟩ := ih (start + 1) j h
            have hjs : start + 1 ≤ j := h1
            refine ⟨by omega, ?_, ?_, ?_⟩
            · simp only [List.length_cons]
              omega
            · have : j - start = (j - (start + 1)) + 1 := by omega
              rw [this, List.getD_cons_succ]
              exact h3
            · intro k hk1 hk2
              rcases Nat.eq_or_lt_of_le hk1 with hk | hk
              · subst hk
                simp only [Nat.sub_self, List.getD_cons_zero]
                refine ⟨fun hc => hne hc, by simpa using hrot, ?_, ?_⟩
                · intro ht
                  simpa [ht] using htr
                · intro hs
                  simpa [hs] using hsc
              · have : k - start = (k - (start + 1)) + 1 := by omega
                rw [this, List.getD_cons_succ]
                exact (h4 k hk hk2).imp id (fun h => h.imp id id)

/-- C6: `SummableChannel(channels, ch)` returns a later index `j` only
when channel `j` has the same operation as channel `ch`; every channel
strictly between them has an op different from `ch`'s; when `ch`'s op is
a rotation, nothing may lie between (`j = ch + 1`); and when `ch`'s op is
a translate (resp. scale) op, every intervening channel is also a
translate (resp. scale) op. -/
theorem SummableChannel_spec (channels : List Channel) (ch : ℕ) (j : ℕ)
    (hj : SummableChannel channels ch = (j : ℤ)) :
    (ch < j ∧ j < channels.length ∧
      (channels.getD j default).op = (channels.getD ch default).op) ∧
    (∀ k, ch < k → k < j →
      (channels.getD k default).op ≠ (channels.getD ch default).op ∧
      (TranslateOp (channels.getD ch default).op = true →
        TranslateOp (channels.getD k default).op = true) ∧
      (ScaleOp (channels.getD ch default).op = true →
        ScaleOp (channels.getD k default).op = true)) ∧
    (RotateOp (channels.getD ch default).op = true → j = ch + 1) := by
  obtain ⟨h1, h2, h3, h4⟩ := summableChannelAux_spec _ _ _ j hj
  rw [drop_getD default (ch + 1) channels (j - (ch + 1)),
    show ch + 1 + (j - (ch + 1)) = j by omega] at h3
  simp only [List.length_drop] at h2
  refine ⟨⟨by omega, by omega, h3⟩, fun k hk1 hk2 => ?_, fun hrot => ?_⟩
  · obtain ⟨ha, _, hb, hc⟩ := h4 k (by omega) hk2
    rw [drop_getD default (ch + 1) channels (k - (ch + 1)),
      show ch + 1 + (k - (ch + 1)) = k by omega] at ha hb hc
    exact ⟨ha, hb, hc⟩
  · by_contra hne
    obtain ⟨_, hrf, _, _⟩ := h4 (ch + 1) (le_refl _) (by omega)
    rw [hrot] at hrf
    exact absurd hrf (by simp)

/-- Witness for `SummableChannel_spec`: a translate-X channel separated
from a later translate-X channel by a translate-Y channel sums across
it. -/
theorem SummableChannel_spec_witness :
    SummableChannel
      [⟨.kTranslateX, 0, []⟩, ⟨.kTranslateY, 1, []⟩, ⟨.kTranslateX, 2, []⟩] 0 =
      ((2 : ℕ) : ℤ) ∧
    (0 < 2 ∧ 2 < ([⟨.kTranslateX, 0, []⟩, ⟨.kTranslateY, 1, []⟩,
        ⟨.kTranslateX, 2, []⟩] : List Channel).length ∧
      (([⟨.kTranslateX, 0, []⟩, ⟨.kTranslateY, 1, []⟩,
          ⟨.kTranslateX, 2, []⟩] : List Channel).getD 2 default).op =
        (([⟨.kTranslateX, 0, []⟩, ⟨.kTranslateY, 1, []⟩,
          ⟨.kTranslateX, 2, []⟩] : List Channel).getD 0 default).op) := by
  have hs : SummableChannel
      [⟨.kTranslateX, 0, []⟩, ⟨.kTranslateY, 1, []⟩, ⟨.kTranslateX, 2, []⟩] 0 =
      ((2 : ℕ) : ℤ) := by decide
  exact ⟨hs, (SummableChannel_spec _ 0 2 hs).1⟩

/-! ### Repeat / cyclic detection -/

/-- The per-channel test inside `FlatAnim::FirstNonRepeatingBone`: the
value difference between the channel's first and last node is within the
per-operation tolerance, and the derivative-angle difference
`fabs(DerivativeAngle(start.derivative - end.derivative))` is within the
looser `repeat_derivative_angle` tolerance (tangent encoding). -/
def ChannelRepeats (tolerances : Tolerances) (c : Channel) : Bool :=
  let start := c.nodes.headD default
  let endN := c.nodes.getLastD default
  decide (|start.val - endN.val| < ToleranceForOp tolerances c.op) &&
    decide (|start.derivative - endN.derivative| <
      tolerances.repeat_derivative_angle)

/-- Source `FlatAnim::FirstNonRepeatingBone`: the first `(bone, channel)` index
pair whose channel fails the repeat test; `none` stands for
`kInvalidBoneIdx` (all channels repeatable). -/
def FirstNonRepeatingBone (tolerances : Tolerances) (bones : List Bone) :
    Option (ℕ × ℕ) :=
  bones.enum.findSome? fun bi =>
    (bi.2.channels.enum.find? fun ci => !ChannelRepeats tolerances ci.2).map
      fun ci => (bi.1, ci.1)

/-- Source `FlatAnim::Repeat`: `kNeverRepeat` never repeats, `kAlwaysRepeat`
always does, and `kRepeatIfRepeatable` repeats exactly when
`FirstNonRepeatingBone` found nothing. -/
def Repeat (tolerances : Tolerances) (repeat_preference : RepeatPreference)
    (bones : List Bone) : Bool :=
  match repeat_preference with
  | .kNeverRepeat => false
  | .kAlwaysRepeat => true
  | .kRepeatIfRepeatable => (FirstNonRepeatingBone tolerances bones).isNone

/-- The repeat criterion exactly as claim C4 words it: value difference
and derivative-angle difference between each channel's first and last
node both within the looser repeat tolerance. -/
def RepeatClaimC4 (tolerances : Tolerances) (bones : List Bone) : Prop :=
  ∀ b ∈ bones, ∀ c ∈ b.channels,
    |(c.nodes.headD default).val - (c.nodes.getLastD default).val| <
      tolerances.repeat_derivative_angle ∧
    |(c.nodes.headD default).derivative - (c.nodes.getLastD default).derivative| <
      tolerances.repeat_derivative_angle

theorem forall_enum_snd {α : Type _} (l : List α) (P : ℕ × α → Prop)
    (hP : ∀ i j a, P (i, a) → P (j, a)) :
    (∀ x ∈ l.enum, P x) ↔ ∀ a ∈ l, P (0, a) := by
  constructor
  · intro h a ha
    have : a ∈ l.enum.map Prod.snd := by rw [List.enum_map_snd]; exact ha
    obtain ⟨⟨i, b⟩, hx, hb⟩ := List.mem_map.mp this
    cases hb
    exact hP i 0 _ (h _ hx)
  · intro h x hx
    obtain ⟨i, a⟩ := x
    have : a ∈ l.enum.map Prod.snd := List.mem_map_of_mem _ hx
    rw [List.enum_map_snd] at this
    exact hP 0 i _ (h a this)

/-- C4, counterexample to the claim as stated: with translate tolerance
`10` and repeat tolerance `1/1000`, a single translate channel whose
first and last values differ by `5` (well within the translate tolerance,
far outside the repeat tolerance) is judged repeatable by the code —
`Repeat` under `kRepeatIfRepeatable` returns true — although the value
difference is not within the looser repeat tolerance, so the claimed
criterion is false.  The code compares the value difference against the
per-operation tolerance, not the repeat tolerance. -/
theorem Repeat_claim_cex :
    Repeat ⟨1, 1, 10, 1, 1 / 1000⟩ .kRepeatIfRepeatable
      [⟨[⟨.kTranslateX, 0, [⟨0, 0, 0⟩, ⟨10, 5, 0⟩]⟩]⟩] = true ∧
    ¬RepeatClaimC4 ⟨1, 1, 10, 1, 1 / 1000⟩
      [⟨[⟨.kTranslateX, 0, [⟨0, 0, 0⟩, ⟨10, 5, 0⟩]⟩]⟩] := by
  constructor
  · norm_num [Repeat, FirstNonRepeatingBone, ChannelRepeats, ToleranceForOp,
      RotateOp, TranslateOp, ScaleOp, MatrixOperationType.val, List.enum,
      List.enumFrom, List.findSome?, List.find?]
  · intro h
    have := h ⟨[⟨.kTranslateX, 0, [⟨0, 0, 0⟩, ⟨10, 5, 0⟩]⟩]⟩ (by simp)
      ⟨.kTranslateX, 0, [⟨0, 0, 0⟩, ⟨10, 5, 0⟩]⟩ (by simp)
    norm_num at this

/-- C4 (amended): the animation is judged repeatable —
`FirstNonRepeatingBone` returns `kInvalidBoneIdx`, equivalently `Repeat`
under `kRepeatIfRepeatable` returns true — iff for every channel of every
bone, the value difference between the channel's first and last node is
within the channel's per-operation tolerance and the derivative-angle
difference is within the looser repeat derivative-angle tolerance. -/
theorem Repeat_iff_channels_repeat (tolerances : Tolerances) (bones : List Bone) :
    (Repeat tolerances .kRepeatIfRepeatable bones = true ↔
      FirstNonRepeatingBone tolerances bones = none) ∧
    (FirstNonRepeatingBone tolerances bones = none ↔
      ∀ b ∈ bones, ∀ c ∈ b.channels,
        |(c.nodes.headD default).val - (c.nodes.getLastD default).val| <
          ToleranceForOp tolerances c.op ∧
        |Real.arctan (((c.nodes.headD default).derivative -
            (c.nodes.getLastD default).derivative : ℚ) : ℝ)| <
          Real.arctan (tolerances.repeat_derivative_angle : ℝ)) := by
  have hchan : ∀ c : Channel, ChannelRepeats tolerances c = true ↔
      (|(c.nodes.headD default).val - (c.nodes.getLastD default).val| <
        ToleranceForOp tolerances c.op ∧
      |Real.arctan (((c.nodes.headD default).derivative -
          (c.nodes.getLastD default).derivative : ℚ) : ℝ)| <
        Real.arctan (tolerances.repeat_derivative_angle : ℝ)) := by
    intro c
    rw [abs_arctan_ratCast_lt]
    simp [ChannelRepeats]
  constructor
  · rw [Repeat, Option.isNone_iff_eq_none]
  · rw [FirstNonRepeatingBone, List.findSome?_eq_none_iff]
    rw [forall_enum_snd bones _
      (fun i j a h => Option.map_eq_none'.mpr (Option.map_eq_none'.mp h))]
    refine forall_congr' fun b => imp_congr_right fun _ => ?_
    rw [Option.map_eq_none', List.find?_eq_none]
    rw [forall_enum_snd b.channels _ (fun i j a h => h)]
    refine forall_congr' fun c => imp_congr_right fun _ => ?_
    rw [← hchan c]
    simp

/-! ### Channel output: spline packing and the negative-time warning -/

/-- The value payload a channel contributes to the output: a constant for
single-node channels, a packed spline otherwise
(`CreateRigAnimFbFromBoneRange`, per-channel branch on `n.size() <= 1`). -/
inductive MatrixOpValue where
  | constant (val : ℚ)
  | spline (nodes : List (ℚ × ℚ × ℚ))
deriving DecidableEq, Repr

/-- Source `FlatAnim::CreateCompactSpline`, observed at the `CompactSpline`
boundary: the sequence of `(time, value, derivative)` arguments passed to
`CompactSpline::AddNode` (quantization inside `CompactSpline` is outside
the sources verified here).  Each node's time is passed as
`static_cast<float>(std::max(0, n->time))` — clamped to zero — while the
channel's own node list is not modified. -/
def CreateCompactSplineNodes (c : Channel) : List (ℚ × ℚ × ℚ) :=
  c.nodes.map fun nd => (((max 0 nd.time : ℤ) : ℚ), nd.val, nd.derivative)

/-- Per-channel output of `CreateRigAnimFbFromBoneRange`: constant for
`n.size() <= 1`, packed spline otherwise.  There is no error path. -/
def ChannelValue (c : Channel) : MatrixOpValue :=
  if c.nodes.length ≤ 1 then .constant (c.nodes.headD default).val
  else .spline (CreateCompactSplineNodes c)

/-- The warning condition in `CreateRigAnimFbFromBoneRange`: a
non-constant channel whose first node is at a negative time is logged
(`"... starts at negative time ..."`); processing then continues. -/
def ChannelWarnsNegativeTime (c : Channel) : Bool :=
  decide (1 < c.nodes.length) && decide ((c.nodes.headD default).time < 0)

theorem map_getD {α β : Type _} (f : α → β) (d : α) :
    ∀ (l : List α) (i : ℕ), (l.map f).getD i (f d) = f (l.getD i d) := by
  intro l
  induction l with
  | nil => intro i; simp [List.getD]
  | cons a t ih =>
    intro i
    match i with
    | 0 => simp [List.getD]
    | i + 1 =>
      simp only [List.map_cons, List.getD_cons_succ]
      exact ih i

/-- C8: a non-constant channel whose first node has a negative time
raises the warning, and is still packed as a spline (no error); every
node is added to the `CompactSpline` at time `max(0, time)` — `0` for
negative times, the unchanged logical time otherwise — while the
channel's stored node times themselves are left unclamped. -/
theorem Channel_negative_time_clamped (c : Channel) (h2 : 2 ≤ c.nodes.length) :
    (ChannelWarnsNegativeTime c = true ↔ (c.nodes.headD default).time < 0) ∧
    ChannelValue c = .spline (CreateCompactSplineNodes c) ∧
    (∀ i : ℕ,
      ((c.nodes.getD i default).time < 0 →
        ((CreateCompactSplineNodes c).getD i (0, 0, 0)).1 = 0) ∧
      (0 ≤ (c.nodes.getD i default).time →
        ((CreateCompactSplineNodes c).getD i (0, 0, 0)).1 =
          ((c.nodes.getD i default).time : ℚ))) := by
  refine ⟨?_, ?_, ?_⟩
  · simp only [ChannelWarnsNegativeTime, Bool.and_eq_true, decide_eq_true_eq]
    constructor
    · exact fun h => h.2
    · exact fun h => ⟨by omega, h⟩
  · rw [ChannelValue, if_neg (by omega)]
  · intro i
    have hd : ((0 : ℚ), (0 : ℚ), (0 : ℚ)) =
        (((max 0 (default : SplineNode).time : ℤ) : ℚ), (default : SplineNode).val,
          (default : SplineNode).derivative) := by
      simp [default]
    rw [CreateCompactSplineNodes, hd,
      map_getD (fun nd : SplineNode => (((max 0 nd.time : ℤ) : ℚ), nd.val, nd.derivative))
        default c.nodes i]
    constructor
    · intro hneg
      simp only []
      rw [max_eq_left (by omega : (c.nodes.getD i default).time ≤ 0)]
      simp
    · intro hpos
      simp only []
      rw [max_eq_right hpos]

/-- Witness for `Channel_negative_time_clamped` on a pre-roll channel
starting at time `-5`. -/
theorem Channel_negative_time_clamped_witness :
    2 ≤ (Channel.mk .kTranslateX 0 [⟨-5, 1, 0⟩, ⟨10, 2, 0⟩]).nodes.length ∧
    ChannelWarnsNegativeTime ⟨.kTranslateX, 0, [⟨-5, 1, 0⟩, ⟨10, 2, 0⟩]⟩ = true ∧
    ((CreateCompactSplineNodes ⟨.kTranslateX, 0, [⟨-5, 1, 0⟩, ⟨10, 2, 0⟩]⟩).getD 0
      (0, 0, 0)).1 = 0 := by
  have h := Channel_negative_time_clamped ⟨.kTranslateX, 0, [⟨-5, 1, 0⟩, ⟨10, 2, 0⟩]⟩
    (by norm_num)
  exact ⟨by norm_num, h.1.mpr (by norm_num [List.getD]),
    (h.2.2 0).1 (by norm_num [List.getD])⟩

/-! ### `FlatAnim::EvaluateNodes` -/

/-- The bracketing walk of `EvaluateNodes`: advance `pre`/`post` through
the nodes until `post.time >= time` (`nodes[i].time >= time`), then build
a cubic over `[pre, post]` and evaluate value and derivative at
`time - pre.time`.  The `[]` case is unreachable under the caller's
guard (`time < nodes.back().time`); the source asserts it away. -/
def EvaluateSegments (time : ℤ) : SplineNode → List SplineNode → ℚ × ℚ
  | pre, [] => (pre.val, 0)
  | pre, post :: rest =>
    if time ≤ post.time then
      ((cubicFromNodes pre post).Evaluate ((time - pre.time : ℤ) : ℚ),
       (cubicFromNodes pre post).Derivative ((time - pre.time : ℤ) : ℚ))
    else EvaluateSegments time post rest

/-- Source `FlatAnim::EvaluateNodes`, returning the pair
`(value, *derivative)`.  The derivative is zeroed first; before the first
node (`time < nodes.front().time`) the first value is returned, at or
after the last node (`time >= nodes.back().time`) the last value;
otherwise interpolate over the bracketing pair.  The source asserts
`nodes.size() > 0`; the `[]` case here returns `(0, 0)`. -/
def EvaluateNodes (nodes : List SplineNode) (time : ℤ) : ℚ × ℚ :=
  match nodes with
  | [] => (0, 0)
  | front :: rest =>
    if time < front.time then (front.val, 0)
    else if ((front :: rest).getLastD default).time ≤ time then
      (((front :: rest).getLastD default).val, 0)
    else EvaluateSegments time front rest

theorem EvaluateNodes_cons (front : SplineNode) (rest : List SplineNode)
    (time : ℤ) :
    EvaluateNodes (front :: rest) time =
      if time < front.time then (front.val, 0)
      else if ((front :: rest).getLastD default).time ≤ time then
        (((front :: rest).getLastD default).val, 0)
      else EvaluateSegments time front rest := rfl

/-- Claim C10's reading of the non-interpolating cases: at any time not
strictly inside the node time span, the result is one of the two clamp
outputs (first value with derivative 0, or last value with derivative
0). -/
def EvaluateNodesClaimAt (nodes : List SplineNode) (time : ℤ) : Prop :=
  ¬((nodes.headD default).time < time ∧ time < (nodes.getLastD default).time) →
    (EvaluateNodes nodes time = ((nodes.headD default).val, 0) ∨
      EvaluateNodes nodes time = ((nodes.getLastD default).val, 0))

/-- C10, counterexample to the claim as stated: at `time = 0`, exactly
the first node's time — not strictly inside the span `(0, 10)` — the code
interpolates through the bracketing cubic and returns the first node's
value with its *actual* derivative `1`, which is neither clamp output. -/
theorem EvaluateNodes_claim_cex :
    EvaluateNodes [⟨0, 0, 1⟩, ⟨10, 5, 1⟩] 0 = (0, 1) ∧
    ¬EvaluateNodesClaimAt [⟨0, 0, 1⟩, ⟨10, 5, 1⟩] 0 := by
  have heval : EvaluateNodes [⟨0, 0, 1⟩, ⟨10, 5, 1⟩] 0 = (0, 1) := by
    norm_num [EvaluateNodes, EvaluateSegments, cubicFromNodes, cubicInit,
      CubicCurve.Evaluate, CubicCurve.Derivative, List.getLastD]
  refine ⟨heval, fun hcl => ?_⟩
  rcases hcl (by norm_num [List.getLastD]) with h | h <;> rw [heval] at h <;>
    · have := congrArg Prod.snd h
      norm_num at this

/-- The bracketing walk finds the first index at or after `time` and
interpolates over that node and its predecessor. -/
theorem EvaluateSegments_spec (time : ℤ) :
    ∀ (rest : List SplineNode) (pre : SplineNode),
      pre.time ≤ time → time < ((pre :: rest).getLastD default).time →
      ∃ i : ℕ, 0 < i ∧ i < (pre :: rest).length ∧
        ((pre :: rest).getD (i - 1) default).time ≤ time ∧
        time ≤ ((pre :: rest).getD i default).time ∧
        (∀ k, 1 ≤ k → k < i → ((pre :: rest).getD k default).time < time) ∧
        EvaluateSegments time pre rest =
          ((cubicFromNodes ((pre :: rest).getD (i - 1) default)
              ((pre :: rest).getD i default)).Evaluate
            ((time - ((pre :: rest).getD (i - 1) default).time : ℤ) : ℚ),
           (cubicFromNodes ((pre :: rest).getD (i - 1) default)
              ((pre :: rest).getD i default)).Derivative
            ((time - ((pre :: rest).getD (i - 1) default).time : ℤ) : ℚ)) := by
  intro rest
  induction rest with
  | nil =>
    intro pre hpre hlast
    rw [show ([pre] : List SplineNode).getLastD default = pre from rfl] at hlast
    omega
  | cons post rest' ih =>
    intro pre hpre hlast
    by_cases hle : time ≤ post.time
    · refine ⟨1, by omega, by simp, by simpa using hpre, by simpa using hle,
        fun k h1 h2 => by omega, ?_⟩
      show EvaluateSegments time pre (post :: rest') = _
      rw [EvaluateSegments, if_pos hle]
      rfl
    · push_neg at hle
      have hlast' : time < ((post :: rest').getLastD default).time := hlast
      obtain ⟨i, hi0, hilen, hgl, hgr, hks, heq⟩ := ih post (le_of_lt hle) hlast'
      have hidx : i + 1 - 1 = (i - 1) + 1 := by omega
      refine ⟨i + 1, by omega, by simpa using Nat.succ_lt_succ hilen, ?_, ?_, ?_, ?_⟩
      · rw [hidx, List.getD_cons_succ]
        exact hgl
      · rw [List.getD_cons_succ]
        exact hgr
      · intro k hk1 hk2
        match k, hk1 with
        | 1, _ => simpa using hle
        | k' + 2, _ =>
          rw [List.getD_cons_succ]
          exact hks (k' + 1) (by omega) (by omega)
      · rw [show EvaluateSegments time pre (post :: rest') =
            EvaluateSegments time post rest' by
              rw [EvaluateSegments, if_neg (by omega)],
          heq, hidx, List.getD_cons_succ, List.getD_cons_succ]

/-- C10 (amended): for a nonempty, time-span-consistent node list,
`EvaluateNodes` returns the first node's value with derivative `0`
strictly before the first node's time, the last node's value with
derivative `0` at or after the last node's time, and for times `t` with
`first.time ≤ t < last.time` — the left endpoint included, unlike the
claim's "strictly inside" — it interpolates value and derivative through
the cubic built from the bracketing node pair (the first node whose time
is `≥ t` and its predecessor). -/
theorem EvaluateNodes_extrapolation (nodes : List SplineNode) (time : ℤ)
    (hne : nodes ≠ [])
    (hspan : (nodes.headD default).time ≤ (nodes.getLastD default).time) :
    (time < (nodes.headD default).time →
      EvaluateNodes nodes time = ((nodes.headD default).val, 0)) ∧
    ((nodes.getLastD default).time ≤ time →
      EvaluateNodes nodes time = ((nodes.getLastD default).val, 0)) ∧
    ((nodes.headD default).time ≤ time → time < (nodes.getLastD default).time →
      ∃ i : ℕ, 0 < i ∧ i < nodes.length ∧
        (nodes.getD (i - 1) default).time ≤ time ∧
        time ≤ (nodes.getD i default).time ∧
        (∀ k, 1 ≤ k → k < i → (nodes.getD k default).time < time) ∧
        EvaluateNodes nodes time =
          ((cubicFromNodes (nodes.getD (i - 1) default)
              (nodes.getD i default)).Evaluate
            ((time - (nodes.getD (i - 1) default).time : ℤ) : ℚ),
           (cubicFromNodes (nodes.getD (i - 1) default)
              (nodes.getD i default)).Derivative
            ((time - (nodes.getD (i - 1) default).time : ℤ) : ℚ))) := by
  match nodes with
  | [] => exact absurd rfl hne
  | front :: rest =>
    have hhead : ((front :: rest).headD default) = front := rfl
    refine ⟨?_, ?_, ?_⟩
    · intro h
      rw [EvaluateNodes_cons, if_pos (by rw [hhead] at h; exact h), hhead]
    · intro h
      rw [hhead] at hspan
      rw [EvaluateNodes_cons, if_neg (by omega), if_pos h]
    · intro h1 h2
      rw [hhead] at h1
      rw [EvaluateNodes_cons, if_neg (by omega), if_neg (by omega)]
      exact EvaluateSegments_spec time rest front h1 h2

/-- Witness for `EvaluateNodes_extrapolation`: clamping at and beyond the
last node. -/
theorem EvaluateNodes_extrapolation_witness :
    (([⟨0, 0, 0⟩, ⟨10, 5, 0⟩] : List SplineNode) ≠ [] ∧
      (([⟨0, 0, 0⟩, ⟨10, 5, 0⟩] : List SplineNode).headD default).time ≤
        (([⟨0, 0, 0⟩, ⟨10, 5, 0⟩] : List SplineNode).getLastD default).time) ∧
    EvaluateNodes [⟨0, 0, 0⟩, ⟨10, 5, 0⟩] 12 = (5, 0) :=
  ⟨⟨by decide, by decide⟩,
    (EvaluateNodes_extrapolation [⟨0, 0, 0⟩, ⟨10, 5, 0⟩] 12 (by decide)
      (by decide)).2.1 (by decide)⟩

end AnimPipeline
